import Mathlib

/-!
Verification development for the kernel-argument injection core of
`assisted-image-service` (`pkg/isoeditor/kargs.go` and related files).

Bytes are modelled as `List Nat` (each element an octet value).  Offsets are
`Nat` (the Go code uses `int64`, but every offset involved is non-negative
and no arithmetic overflows for realistic image sizes, so `Nat` is the
faithful shallow embedding).
-/

/-- Bytes of a string literal (all strings involved are ASCII). -/
def strBytes (s : String) : List Nat := s.toList.map Char.toNat

/-- The literal tail of the marker pattern `(\n#*)# COREOS_KARG_EMBED_AREA`:
everything after the capturing group. -/
def markerLit : List Nat := strBytes "# COREOS_KARG_EMBED_AREA"

/-- Length of the maximal run of `'#'` (byte 35) at the head of the list.
Embeds the behaviour of the greedy `#*` in the marker pattern. -/
def hashRun : List Nat → Nat
  | b :: rest => if b = 35 then hashRun rest + 1 else 0
  | [] => 0

/-- Whether the fixed pattern `(\n#*)# COREOS_KARG_EMBED_AREA` matches at
position `i` of `b`; returns the length of the capturing group `\n#*`.
With the greedy `#*` followed by the literal `#`, the group consumes the
newline and all but the last `'#'` of the maximal hash run, so the group
length equals the run length (newline plus `run - 1` hashes). -/
def matchAt (b : List Nat) (i : Nat) : Option Nat :=
  if b[i]? = some 10 then
    if 1 ≤ hashRun (b.drop (i + 1)) ∧
        markerLit.isPrefixOf (b.drop (i + hashRun (b.drop (i + 1)))) then
      some (hashRun (b.drop (i + 1)))
    else none
  else none

/-- Leftmost match search, embedding `regexp.FindSubmatchIndex`: scan
positions left to right, return the first position where the pattern
matches, together with the capture-group length. -/
def findMarkerAux (b : List Nat) : Nat → Nat → Option (Nat × Nat)
  | _, 0 => none
  | i, fuel + 1 =>
    match matchAt b i with
    | some r => some (i, r)
    | none => findMarkerAux b (i + 1) fuel

/-- First (leftmost) match of the marker pattern in `b`:
`some (captureStart, captureLength)` or `none`. -/
def findMarker (b : List Nat) : Option (Nat × Nat) :=
  findMarkerAux b 0 b.length

/-- Number of positions of `b` at which the marker pattern matches. -/
def countMarkerMatches (b : List Nat) : Nat :=
  ((List.range b.length).filter (fun i => (matchAt b i).isSome)).length

/-- Embedding of `kargsEmbedAreaBoundariesFinder` (kargs.go lines 174-191)
after the two collaborator calls have supplied the file's start offset
`start` and its raw content `b`: on a match the result is
`(start + captureStart, captureLength)`; otherwise the marker-not-found
error. -/
def kargsEmbedAreaBoundariesFinder (start : Nat) (b : List Nat) :
    Except String (Nat × Nat) :=
  match findMarker b with
  | some (i, r) => .ok (start + i, r)
  | none => .error "failed to find COREOS_KARG_EMBED_AREA"

example : findMarker (strBytes "A\n## COREOS_KARG_EMBED_AREA\nB") = some (1, 2) := by decide

example : findMarker (strBytes "A\n# COREOS_KARG_EMBED_AREA\nB") = some (1, 1) := by decide

example : findMarker (strBytes "no marker here") = none := by decide

/-- A position at or beyond the end of the content never matches. -/
lemma matchAt_eq_none_of_le {b : List Nat} {i : Nat} (h : b.length ≤ i) :
    matchAt b i = none := by
  simp [matchAt, List.getElem?_eq_none h]

lemma findMarkerAux_eq_some {b : List Nat} :
    ∀ {fuel i j r}, findMarkerAux b i fuel = some (j, r) → matchAt b j = some r := by
  intro fuel
  induction fuel with
  | zero => intro i j r h; simp [findMarkerAux] at h
  | succ n ih =>
    intro i j r h
    simp only [findMarkerAux] at h
    cases hm : matchAt b i with
    | some v => rw [hm] at h; simp at h; rw [← h.1, ← h.2]; exact hm
    | none => rw [hm] at h; exact ih h

/-- A successful `findMarker` result is a real match. -/
lemma findMarker_eq_some {b : List Nat} {i r : Nat}
    (h : findMarker b = some (i, r)) : matchAt b i = some r :=
  findMarkerAux_eq_some h

lemma findMarkerAux_eq_none {b : List Nat} :
    ∀ {fuel i}, findMarkerAux b i fuel = none ↔ ∀ k, k < fuel → matchAt b (i + k) = none := by
  intro fuel
  induction fuel with
  | zero => intro i; simp [findMarkerAux]
  | succ n ih =>
    intro i
    simp only [findMarkerAux]
    cases hm : matchAt b i with
    | some v =>
      simp only [reduceCtorEq, false_iff]
      intro hall
      have := hall 0 (Nat.succ_pos n)
      rw [Nat.add_zero] at this
      rw [hm] at this
      exact Option.noConfusion this
    | none =>
      rw [ih]
      constructor
      · intro hall k hk
        cases k with
        | zero => rw [Nat.add_zero]; exact hm
        | succ m =>
          have := hall m (Nat.lt_of_succ_lt_succ hk)
          rw [← this]; congr 1; omega
      · intro hall k hk
        have := hall (k + 1) (Nat.succ_lt_succ hk)
        rw [← this]; congr 1; omega

/-- `findMarker` fails exactly when the pattern matches nowhere. -/
lemma findMarker_eq_none {b : List Nat} :
    findMarker b = none ↔ ∀ i, matchAt b i = none := by
  unfold findMarker
  rw [findMarkerAux_eq_none]
  constructor
  · intro h i
    by_cases hi : i < b.length
    · have := h i hi; rwa [Nat.zero_add] at this
    · exact matchAt_eq_none_of_le (Nat.le_of_not_lt hi)
  · intro h k _
    exact h (0 + k)

lemma hashRun_mem {l : List Nat} : ∀ {k}, k < hashRun l → l[k]? = some 35 := by
  induction l with
  | nil => intro k h; simp [hashRun] at h
  | cons x xs ih =>
    intro k h
    simp only [hashRun] at h
    by_cases hx : x = 35
    · rw [if_pos hx] at h
      cases k with
      | zero => simp [hx]
      | succ m =>
        simp only [List.getElem?_cons_succ]
        exact ih (Nat.lt_of_succ_lt_succ h)
    · rw [if_neg hx] at h; omega

/-- Every byte inside the capture span of a match is a newline or a `'#'`. -/
lemma matchAt_bytes {b : List Nat} {i r : Nat} (h : matchAt b i = some r) :
    ∀ p, i ≤ p → p < i + r → b[p]? = some 10 ∨ b[p]? = some 35 := by
  unfold matchAt at h
  split at h
  · next hnl =>
    split at h
    · next hcond =>
      intro p hip hpr
      rcases Nat.eq_or_lt_of_le hip with heq | hlt
      · left; rw [← heq]; exact hnl
      · right
        have hk : p - (i + 1) < hashRun (b.drop (i + 1)) := by
          have hr : hashRun (b.drop (i + 1)) = r := Option.some.inj h
          omega
        have := hashRun_mem hk
        rw [List.getElem?_drop] at this
        rw [← this]
        congr 1
        omega
    · exact absurd h (by simp)
  · exact absurd h (by simp)

/-- Content that contains the marker line twice: the pattern matches at two
positions. -/
def twoMarkerContent : List Nat :=
  strBytes "\n# COREOS_KARG_EMBED_AREA\n# COREOS_KARG_EMBED_AREA"

/-- C5 counterexample: the claim says content in which the marker pattern
does not match exactly once is rejected with a marker-not-found error, and
in particular content containing the marker more than once.  On this content
the pattern matches at two positions, yet `kargsEmbedAreaBoundariesFinder`
succeeds, using the first match: `regexp.FindSubmatchIndex` returns the
leftmost match and the code never counts matches. -/
theorem c5_two_markers_accepted :
    countMarkerMatches twoMarkerContent = 2 ∧
      kargsEmbedAreaBoundariesFinder 0 twoMarkerContent = .ok (0, 1) := by
  exact ⟨by decide, rfl⟩

/-- C5 (amended): `kargsEmbedAreaBoundariesFinder` fails with the
marker-not-found error exactly when the marker pattern matches nowhere in the
content; when the pattern matches one or more times the finder succeeds on
the leftmost match (`FindSubmatchIndex` never returns fewer than four indexes
for a successful match of this pattern, since its capture group is
mandatory). -/
theorem c5_marker_not_found_iff_no_match (start : Nat) (b : List Nat) :
    (∃ msg, kargsEmbedAreaBoundariesFinder start b = .error msg) ↔
      ∀ i, matchAt b i = none := by
  unfold kargsEmbedAreaBoundariesFinder
  cases hfm : findMarker b with
  | some v =>
    simp only [reduceCtorEq, exists_false, false_iff]
    intro hall
    rcases v with ⟨i, r⟩
    have := findMarker_eq_some hfm
    rw [hall i] at this
    exact Option.noConfusion this
  | none =>
    constructor
    · intro _
      exact findMarker_eq_none.mp hfm
    · intro _
      exact ⟨_, rfl⟩

/-- C6: for content containing the marker exactly once, the boundary finder
returns offset `fileStart + captureStart` and length `captureLength`, and
every byte in the capture span is a newline (10) or `'#'` (35): the capture
group `\n#*` never extends past the marker line. -/
theorem c6_embed_area_bounds (start : Nat) (b : List Nat) (i r : Nat)
    (_honce : countMarkerMatches b = 1)
    (hfind : findMarker b = some (i, r)) :
    kargsEmbedAreaBoundariesFinder start b = .ok (start + i, r) ∧
      ∀ p, i ≤ p → p < i + r → b[p]? = some 10 ∨ b[p]? = some 35 := by
  constructor
  · unfold kargsEmbedAreaBoundariesFinder
    rw [hfind]
  · exact matchAt_bytes (findMarker_eq_some hfind)

/-- C6 witness: a concrete grub-config fragment whose embed-area marker
appears exactly once, with the file placed at absolute offset 100. -/
theorem c6_embed_area_bounds_witness :
    kargsEmbedAreaBoundariesFinder 100 (strBytes "A\n## COREOS_KARG_EMBED_AREA\nB") =
        .ok (101, 2) ∧
      ∀ p, 1 ≤ p → p < 3 →
        (strBytes "A\n## COREOS_KARG_EMBED_AREA\nB")[p]? = some 10 ∨
          (strBytes "A\n## COREOS_KARG_EMBED_AREA\nB")[p]? = some 35 := by
  have h := c6_embed_area_bounds 100 (strBytes "A\n## COREOS_KARG_EMBED_AREA\nB") 1 2
    (by decide) (by decide)
  exact ⟨h.1, h.2⟩

/-- Embedding of `ReadFileFromISO` restricted to the target file once the
ISO9660 walker has resolved it to `(off, len)`: the file's raw content is
the corresponding slice of the image bytes. -/
def readFileFromISO (iso : List Nat) (off len : Nat) : List Nat :=
  (iso.drop off).take len

/-- Modelled from the spec: the overlay composer (`readerForContent` /
`overlay.NewOverlayReader`, outside `src/`).  Per section 4.2, reading the
composed stream yields base bytes outside the patch region and patch bytes
inside it, with the patch placed at absolute offset `off` and declared
length equal to the patch's own length (as in `readerForKargsS390x`, which
sets `Length: contentReader.Size()`).  For a patch lying inside the base
this is the base with the patch bytes substituted in place. -/
def overlayBytes (base : List Nat) (off : Nat) (patch : List Nat) : List Nat :=
  base.take off ++ (patch ++ base.drop (off + patch.length))

/-- Embedding of `isolateISOFile` (the File Isolator) for `minLength = 0`:
seek the composed stream to the file's offset and limit reading to the
file's length (`io.LimitReader`). -/
def isolateBytes (stream : List Nat) (off len : Nat) : List Nat :=
  (stream.drop off).take len

/-- Embedding of `kargsFileData` (kargs.go lines 114-140) on the non-s390x
branch: run the embed-area boundary finder on the target file's content,
compose the overlay at the returned absolute offset, and isolate the target
file's byte range from the composed image stream. -/
def kargsFileDataContent (iso : List Nat) (fOff fLen : Nat) (appendData : List Nat) :
    Except String (List Nat) :=
  match kargsEmbedAreaBoundariesFinder fOff (readFileFromISO iso fOff fLen) with
  | .error e => .error e
  | .ok (absOff, _) => .ok (isolateBytes (overlayBytes iso absOff appendData) fOff fLen)

lemma overlay_isolate_eq (iso a : List Nat) (fOff fLen i : Nat)
    (h1 : i + a.length ≤ fLen) (h2 : fOff + fLen ≤ iso.length) :
    isolateBytes (overlayBytes iso (fOff + i) a) fOff fLen =
      (readFileFromISO iso fOff fLen).take i ++
        (a ++ (readFileFromISO iso fOff fLen).drop (i + a.length)) := by
  unfold isolateBytes overlayBytes readFileFromISO
  simp only [List.drop_append_eq_append_drop, List.take_append_eq_append_take,
    List.drop_take, List.take_take, List.drop_drop, List.length_take, List.length_drop,
    List.drop_zero]
  have e1 : min fLen (fOff + i - fOff) = min i fLen := by omega
  have e2 : fOff - min (fOff + i) iso.length = 0 := by omega
  rw [e1, e2, List.drop_zero]
  congr 1
  have e3 : fLen - min (fOff + i - fOff) (iso.length - fOff) = fLen - i := by omega
  rw [e3]
  have e4 : a.take (fLen - i) = a := List.take_of_length_le (by omega)
  rw [e4]
  congr 1
  congr 1
  · omega
  · congr 1
    omega

/-- C1: for a non-s390x image whose grub config contains the embed-area
marker exactly once, and a (normalized) non-empty append text that fits in
the file, the stream produced by the kargs pipeline, read from its start,
is byte-identical to the original file content with the append bytes
substituted at the capture span, and its length equals the original file's
length. -/
theorem c1_marker_overlay_stream (iso appendData : List Nat) (fOff fLen i r : Nat)
    (_honce : countMarkerMatches (readFileFromISO iso fOff fLen) = 1)
    (hfind : findMarker (readFileFromISO iso fOff fLen) = some (i, r))
    (_hne : appendData ≠ [])
    (hfits : i + appendData.length ≤ fLen)
    (hbound : fOff + fLen ≤ iso.length) :
    kargsFileDataContent iso fOff fLen appendData =
      .ok ((readFileFromISO iso fOff fLen).take i ++
        (appendData ++ (readFileFromISO iso fOff fLen).drop (i + appendData.length))) ∧
      ((readFileFromISO iso fOff fLen).take i ++
        (appendData ++ (readFileFromISO iso fOff fLen).drop (i + appendData.length))).length =
        (readFileFromISO iso fOff fLen).length := by
  constructor
  · unfold kargsFileDataContent kargsEmbedAreaBoundariesFinder
    rw [hfind]
    exact congrArg Except.ok (overlay_isolate_eq iso appendData fOff fLen i hfits hbound)
  · unfold readFileFromISO
    simp only [List.length_append, List.length_take, List.length_drop]
    omega

/-- The synthetic image of the C1 witness: a one-file image whose content is
a grub config with the marker at offset 1 and room after it. -/
def c1iso : List Nat := strBytes "A\n## COREOS_KARG_EMBED_AREA\n0123456789"

/-- C1 witness: the concrete end-to-end case of the spec, `appendText`
normalized to `"foo=bar\n"`, marker capture span at offset 1. -/
theorem c1_marker_overlay_stream_witness :
    kargsFileDataContent c1iso 0 38 (strBytes "foo=bar\n") =
      .ok ((readFileFromISO c1iso 0 38).take 1 ++
        (strBytes "foo=bar\n" ++
          (readFileFromISO c1iso 0 38).drop (1 + (strBytes "foo=bar\n").length))) ∧
      ((readFileFromISO c1iso 0 38).take 1 ++
        (strBytes "foo=bar\n" ++
          (readFileFromISO c1iso 0 38).drop (1 + (strBytes "foo=bar\n").length))).length =
        (readFileFromISO c1iso 0 38).length :=
  c1_marker_overlay_stream c1iso (strBytes "foo=bar\n") 0 38 1 2
    (by decide) (by decide) (by decide) (by decide) (by decide)

/-- The architecture-detection substring: `strings.Contains(isoPath, "s390x")`. -/
def s390xBytes : List Nat := strBytes "s390x"

/-- Embedding of Go's `strings.Contains`: `pat` occurs contiguously in `s`. -/
def containsSeq (s pat : List Nat) : Bool :=
  (List.range (s.length + 1)).any (fun i => pat.isPrefixOf (s.drop i))

example : containsSeq (strBytes "rhcos-s390x.iso") s390xBytes = true := by decide

example : containsSeq (strBytes "rhcos-x86_64.iso") s390xBytes = false := by decide

/-- Embedding of the append-text normalization in `NewKargsReader`
(kargs.go lines 149-152): append a trailing newline when the text does not
already end in one, except when the image path contains `"s390x"`. -/
def normalizeAppend (isoPath appendKargs : List Nat) : List Nat :=
  if appendKargs.getLast? ≠ some 10 ∧ ¬ containsSeq isoPath s390xBytes then
    appendKargs ++ [10]
  else appendKargs

/-- An `OutputFile` as returned per target file: the filename inside the
image, and the stream it owns (streams are modelled by an identifier so
close calls can be observed). -/
structure FileDataM where
  filename : List Nat
  streamId : Nat
deriving DecidableEq, Repr

/-- Embedding of the per-file loop of `NewKargsReader` (kargs.go lines
159-171): `mkf` is `kargsFileData` applied to the (fixed) image path and
append bytes.  On the first failure every already-accumulated output stream
is closed, in order, and the error alone is returned; the second component
records which stream ids were closed during the call. -/
def kargsLoop (mkf : List Nat → Except String FileDataM) :
    List (List Nat) → List FileDataM → Except String (List FileDataM) × List Nat
  | [], output => (.ok output, [])
  | f :: fs, output =>
    match mkf f with
    | .error e => (.error e, output.map (fun fd => fd.streamId))
    | .ok fd => kargsLoop mkf fs (output ++ [fd])

/-- Embedding of `NewKargsReader` (kargs.go lines 145-172).  The two
collaborators are passed explicitly: `mk appendData f` stands for
`kargsFileData(isoPath, f, appendData)` and `filesResult` for
`KargsFiles(isoPath)`.  The result's first component is `none` for the Go
`nil, nil` no-op return and `some output` for a successful conversion; the
second component lists the stream ids closed during the call. -/
def NewKargsReader (mk : List Nat → List Nat → Except String FileDataM)
    (filesResult : Except String (List (List Nat)))
    (isoPath appendKargs : List Nat) :
    Except String (Option (List FileDataM)) × List Nat :=
  if appendKargs = [] ∨ appendKargs = [10] then (.ok none, [])
  else
    match filesResult with
    | .error e => (.error e, [])
    | .ok files =>
      match kargsLoop (mk (normalizeAppend isoPath appendKargs)) files [] with
      | (.ok out, closed) => (.ok (some out), closed)
      | (.error e, closed) => (.error e, closed)

/-- The append buffer ends in exactly one newline: its last byte is a
newline and the byte before it (when present) is not. -/
def endsInOneNl (l : List Nat) : Prop :=
  l.getLast? = some 10 ∧ l.dropLast.getLast? ≠ some 10

/-- C2: `NewKargsReader` returns the no-op `nil, nil` for an empty or
single-newline append text; for any other append text not already ending in
a newline, the normalized buffer ends in exactly one newline — except when
the image path contains `"s390x"`, where the buffer is left untouched. -/
theorem c2_append_normalization (mk : List Nat → List Nat → Except String FileDataM)
    (filesResult : Except String (List (List Nat))) (isoPath a : List Nat) :
    ((a = [] ∨ a = [10]) →
        NewKargsReader mk filesResult isoPath a = (.ok none, [])) ∧
      (a ≠ [] → a.getLast? ≠ some 10 →
        (containsSeq isoPath s390xBytes = false →
            endsInOneNl (normalizeAppend isoPath a)) ∧
          (containsSeq isoPath s390xBytes = true →
            normalizeAppend isoPath a = a)) := by
  constructor
  · intro h
    unfold NewKargsReader
    rw [if_pos h]
  · intro _hne hlast
    constructor
    · intro hnos
      unfold normalizeAppend
      rw [if_pos ⟨hlast, by rw [hnos]; exact Bool.false_ne_true⟩]
      constructor
      · exact List.getLast?_concat _
      · rw [List.dropLast_concat]
        exact hlast
    · intro hs
      unfold normalizeAppend
      rw [if_neg]
      intro hcon
      rw [hs] at hcon
      exact hcon.2 rfl

/-- C2 witness: no-op on the single newline, exactly-one-newline
normalization on a non-s390x path, untouched buffer on an s390x path. -/
theorem c2_append_normalization_witness :
    NewKargsReader (fun _ _ => .error "unused") (.ok []) (strBytes "rhcos-x86_64.iso") [10] =
        (.ok none, []) ∧
      endsInOneNl (normalizeAppend (strBytes "rhcos-x86_64.iso") (strBytes "foo=bar")) ∧
      normalizeAppend (strBytes "rhcos-s390x.iso") (strBytes "foo=bar") = strBytes "foo=bar" :=
  ⟨(c2_append_normalization _ _ (strBytes "rhcos-x86_64.iso") [10]).1 (Or.inr rfl),
    ((c2_append_normalization (fun _ _ => .error "unused") (.ok [])
        (strBytes "rhcos-x86_64.iso") (strBytes "foo=bar")).2
      (by decide) (by decide)).1 (by decide),
    ((c2_append_normalization (fun _ _ => .error "unused") (.ok [])
        (strBytes "rhcos-s390x.iso") (strBytes "foo=bar")).2
      (by decide) (by decide)).2 (by decide)⟩

lemma kargsLoop_fail (mkf : List Nat → Except String FileDataM) (e : String) :
    ∀ (fds : List FileDataM) (files : List (List Nat)) (acc : List FileDataM)
      (hi : fds.length < files.length),
      (∀ j (hj : j < fds.length),
        mkf (files.get ⟨j, by omega⟩) = .ok (fds.get ⟨j, hj⟩)) →
      mkf (files.get ⟨fds.length, hi⟩) = .error e →
      kargsLoop mkf files acc = (.error e, (acc ++ fds).map (fun fd => fd.streamId)) := by
  intro fds
  induction fds with
  | nil =>
    intro files acc hi hok hfail
    cases files with
    | nil => exact absurd hi (by simp)
    | cons f fs =>
      have hfail' : mkf f = .error e := hfail
      unfold kargsLoop
      rw [hfail']
      simp
  | cons fd fds ih =>
    intro files acc hi hok hfail
    cases files with
    | nil => exact absurd hi (by simp)
    | cons f fs =>
      have h0 : mkf f = .ok fd := hok 0 (by simp)
      have hi' : fds.length < fs.length := by
        simp only [List.length_cons] at hi
        omega
      have hok' : ∀ j (hj : j < fds.length),
          mkf (fs.get ⟨j, by omega⟩) = .ok (fds.get ⟨j, hj⟩) :=
        fun j hj => hok (j + 1) (by simpa using Nat.succ_lt_succ hj)
      have hfail' : mkf (fs.get ⟨fds.length, hi'⟩) = .error e := hfail
      unfold kargsLoop
      rw [h0]
      show kargsLoop mkf fs (acc ++ [fd]) =
        (Except.error e, (acc ++ fd :: fds).map (fun fd => fd.streamId))
      rw [ih fs (acc ++ [fd]) hi' hok' hfail', List.append_assoc, List.singleton_append]

/-- C3: if constructing the `i`-th `OutputFile` fails, `NewKargsReader`
closes every previously constructed output stream (indices `0..i-1`, in
order) during the call and returns the error with no partial results. -/
theorem c3_rollback_on_failure (mk : List Nat → List Nat → Except String FileDataM)
    (isoPath a : List Nat) (ha : ¬(a = [] ∨ a = [10]))
    (files : List (List Nat)) (fds : List FileDataM) (e : String)
    (hi : fds.length < files.length)
    (hok : ∀ j (hj : j < fds.length),
      mk (normalizeAppend isoPath a) (files.get ⟨j, by omega⟩) = .ok (fds.get ⟨j, hj⟩))
    (hfail : mk (normalizeAppend isoPath a) (files.get ⟨fds.length, hi⟩) = .error e) :
    NewKargsReader mk (.ok files) isoPath a =
      (.error e, fds.map (fun fd => fd.streamId)) := by
  unfold NewKargsReader
  rw [if_neg ha]
  have h := kargsLoop_fail (mk (normalizeAppend isoPath a)) e fds files [] hi hok hfail
  rw [List.nil_append] at h
  show (match kargsLoop (mk (normalizeAppend isoPath a)) files [] with
    | (.ok out, closed) => (Except.ok (some out), closed)
    | (.error e, closed) => (Except.error e, closed)) =
      (Except.error e, fds.map (fun fd => fd.streamId))
  rw [h]

/-- The `kargsFileData` collaborator of the C3 witness: fails for every file
except the grub config, whose stream gets id 7. -/
def c3mk : List Nat → List Nat → Except String FileDataM :=
  fun _ f =>
    if f = strBytes "/EFI/redhat/grub.cfg" then
      .ok ⟨strBytes "/EFI/redhat/grub.cfg", 7⟩
    else .error "open failed"

/-- C3 witness: two target files, the second fails; the first stream (id 7)
is closed and the error is returned with no output. -/
theorem c3_rollback_on_failure_witness :
    NewKargsReader c3mk
        (.ok [strBytes "/EFI/redhat/grub.cfg", strBytes "/isolinux/isolinux.cfg"])
        (strBytes "rhcos-x86_64.iso") (strBytes "foo") =
      (.error "open failed", [7]) :=
  c3_rollback_on_failure c3mk (strBytes "rhcos-x86_64.iso") (strBytes "foo") (by decide)
    [strBytes "/EFI/redhat/grub.cfg", strBytes "/isolinux/isolinux.cfg"]
    [⟨strBytes "/EFI/redhat/grub.cfg", 7⟩] "open failed" (by decide)
    (fun j hj => by
      have hj0 : j = 0 := by
        simp only [List.length_cons, List.length_nil] at hj
        omega
      subst hj0
      rfl)
    rfl

/-!
Argument codec (`KargsToStr` / `StrToKargs`, kargs.go lines 203-247).
Go's `encoding/json` is modelled at the JSON-value level: `json.Marshal`
produces a `Json` value and `json.Unmarshal` consumes one, with the struct
tags of `kernelArgument` (`omitempty` on both fields, later duplicate keys
overwriting earlier ones) embedded explicitly.
-/

/-- JSON values. -/
inductive Json where
  | null
  | jbool (b : Bool)
  | num (n : Int)
  | str (s : String)
  | arr (elems : List Json)
  | obj (fields : List (String × Json))

/-- The `kernelArgument` record (kargs.go lines 203-215). -/
structure KernelArgument where
  Operation : String
  Value : String
deriving DecidableEq, Repr

/-- `json.Marshal` of a `kernelArgument`: both fields carry `omitempty`, so
an empty string is omitted from the object. -/
def marshalKernelArgument (a : KernelArgument) : Json :=
  Json.obj ((if a.Operation = "" then [] else [("operation", Json.str a.Operation)]) ++
    (if a.Value = "" then [] else [("value", Json.str a.Value)]))

/-- Embedding of `KargsToStr` (kargs.go lines 219-232): wrap each argument
as an append-operation record and marshal the list.  A `nil` slice (empty
input) marshals to JSON `null`; marshalling of this type never fails, so the
Go error branch is unreachable and the result is the JSON value itself. -/
def KargsToStr (args : List String) : Json :=
  if args.isEmpty then Json.null
  else Json.arr (args.map (fun s => marshalKernelArgument ⟨"append", s⟩))

/-- Field lookup as `encoding/json` resolves duplicate keys: the last
occurrence wins. -/
def lookupField (fields : List (String × Json)) (k : String) : Option Json :=
  (fields.reverse.find? (fun p => p.1 == k)).map Prod.snd

/-- Decode one string-typed field; a missing field leaves the zero value. -/
def getStrField (fields : List (String × Json)) (k : String) : Except String String :=
  match lookupField fields k with
  | none => .ok ""
  | some (Json.str s) => .ok s
  | some _ => .error "cannot unmarshal value into field of type string"

/-- `json.Unmarshal` of one `kernelArgument` record. -/
def unmarshalKernelArgument : Json → Except String KernelArgument
  | Json.obj fields =>
    match getStrField fields "operation", getStrField fields "value" with
    | .ok op, .ok v => .ok ⟨op, v⟩
    | .error e, _ => .error e
    | .ok _, .error e => .error e
  | _ => .error "cannot unmarshal value into kernelArgument"

/-- Decode the elements of a JSON array into `kernelArgument` records, in
order, failing on the first undecodable element. -/
def decodeElems : List Json → Except String (List KernelArgument)
  | [] => .ok []
  | j :: rest =>
    match unmarshalKernelArgument j with
    | .error e => .error e
    | .ok a =>
      match decodeElems rest with
      | .error e => .error e
      | .ok tl => .ok (a :: tl)

/-- `json.Unmarshal` into `kernelArguments`: `null` leaves the nil slice,
an array decodes element-wise, anything else is a type error. -/
def decodeKargsList : Json → Except String (List KernelArgument)
  | Json.null => .ok []
  | Json.arr elems => decodeElems elems
  | _ => .error "cannot unmarshal value into kernelArguments"

/-- The validation loop of `StrToKargs` (kargs.go lines 240-245): collect
values in order, failing on the first record whose operation is not
`"append"`. -/
def checkAppend : List KernelArgument → Except String (List String)
  | [] => .ok []
  | a :: rest =>
    if a.Operation ≠ "append" then
      .error ("only append operation is allowed, got " ++ a.Operation)
    else
      match checkAppend rest with
      | .error e => .error e
      | .ok vs => .ok (a.Value :: vs)

/-- Embedding of `StrToKargs` (kargs.go lines 234-247): unmarshal, then
validate that every record's operation is `"append"`. -/
def StrToKargs (j : Json) : Except String (List String) :=
  match decodeKargsList j with
  | .error e => .error ("failed to unmarshal kernel arguments " ++ e)
  | .ok kargs => checkAppend kargs

lemma unmarshal_marshal (s : String) :
    unmarshalKernelArgument (marshalKernelArgument ⟨"append", s⟩) = .ok ⟨"append", s⟩ := by
  by_cases hs : s = ""
  · subst hs
    rfl
  · simp only [marshalKernelArgument, unmarshalKernelArgument, getStrField, lookupField,
      if_neg hs]
    simp [List.find?, hs]

lemma decodeElems_marshal (args : List String) :
    decodeElems (args.map (fun s => marshalKernelArgument ⟨"append", s⟩)) =
      .ok (args.map (fun s => (⟨"append", s⟩ : KernelArgument))) := by
  induction args with
  | nil => rfl
  | cons a tl ih =>
    simp only [List.map_cons, decodeElems, unmarshal_marshal, ih]

lemma checkAppend_all_append (args : List String) :
    checkAppend (args.map (fun s => (⟨"append", s⟩ : KernelArgument))) = .ok args := by
  induction args with
  | nil => rfl
  | cons a tl ih =>
    simp only [List.map_cons, checkAppend, ih]
    rfl

/-- C7: decoding the encoding of any ordered list of argument strings
succeeds and returns the original list unchanged, in order. -/
theorem c7_kargs_roundtrip (args : List String) :
    StrToKargs (KargsToStr args) = .ok args := by
  cases args with
  | nil => rfl
  | cons a tl =>
    unfold KargsToStr
    rw [if_neg (by simp)]
    show (match decodeElems ((a :: tl).map (fun s => marshalKernelArgument ⟨"append", s⟩)) with
      | Except.error e => Except.error ("failed to unmarshal kernel arguments " ++ e)
      | Except.ok kargs => checkAppend kargs) = Except.ok (a :: tl)
    rw [decodeElems_marshal]
    exact checkAppend_all_append (a :: tl)

lemma checkAppend_error_of_bad {kargs : List KernelArgument}
    (h : ∃ a ∈ kargs, a.Operation ≠ "append") :
    ∃ msg, checkAppend kargs = .error msg := by
  induction kargs with
  | nil => simp at h
  | cons a tl ih =>
    by_cases hop : a.Operation ≠ "append"
    · exact ⟨_, by unfold checkAppend; rw [if_pos hop]⟩
    · push_neg at hop
      rcases h with ⟨b, hb, hbad⟩
      have hbtl : b ∈ tl := by
        rcases List.mem_cons.mp hb with rfl | hmem
        · exact absurd hop hbad
        · exact hmem
      obtain ⟨msg, hmsg⟩ := ih ⟨b, hbtl, hbad⟩
      refine ⟨msg, ?_⟩
      unfold checkAppend
      rw [if_neg (by simp [hop]), hmsg]

/-- C8: for every JSON value that unmarshals into a record list in which
some record's operation is not `"append"` (for example `"replace"` or
`"delete"`), `StrToKargs` returns a validation error and no argument list;
the record is never silently dropped. -/
theorem c8_non_append_rejected (j : Json) (kargs : List KernelArgument)
    (hdec : decodeKargsList j = .ok kargs)
    (hbad : ∃ a ∈ kargs, a.Operation ≠ "append") :
    ∃ msg, StrToKargs j = .error msg := by
  obtain ⟨msg, hmsg⟩ := checkAppend_error_of_bad hbad
  refine ⟨msg, ?_⟩
  unfold StrToKargs
  rw [hdec]
  exact hmsg

/-- C8 witness: a well-formed list with a `"delete"` record is rejected. -/
theorem c8_non_append_rejected_witness :
    ∃ msg,
      StrToKargs (Json.arr
        [Json.obj [("operation", Json.str "delete"), ("value", Json.str "quiet")]]) =
        .error msg :=
  c8_non_append_rejected
    (Json.arr [Json.obj [("operation", Json.str "delete"), ("value", Json.str "quiet")]])
    [⟨"delete", "quiet"⟩] rfl
    ⟨⟨"delete", "quiet"⟩, List.mem_singleton.mpr rfl, by decide⟩

lemma decodeElems_mem {x : Json} :
    ∀ {pre post : List Json} {kargs : List KernelArgument},
      decodeElems (pre ++ x :: post) = .ok kargs →
      ∃ a ∈ kargs, unmarshalKernelArgument x = .ok a := by
  intro pre
  induction pre with
  | nil =>
    intro post kargs h
    rw [List.nil_append] at h
    unfold decodeElems at h
    cases hx : unmarshalKernelArgument x with
    | error e => rw [hx] at h; exact absurd h (by simp)
    | ok a =>
      rw [hx] at h
      cases hr : decodeElems post with
      | error e => rw [hr] at h; exact absurd h (by simp)
      | ok tl =>
        rw [hr] at h
        obtain rfl : a :: tl = kargs := Except.ok.inj h
        exact ⟨a, List.mem_cons_self a tl, rfl⟩
  | cons p ps ih =>
    intro post kargs h
    rw [List.cons_append] at h
    unfold decodeElems at h
    cases hp : unmarshalKernelArgument p with
    | error e => rw [hp] at h; exact absurd h (by simp)
    | ok a =>
      rw [hp] at h
      cases hr : decodeElems (ps ++ x :: post) with
      | error e => rw [hr] at h; exact absurd h (by simp)
      | ok tl =>
        rw [hr] at h
        obtain rfl : a :: tl = kargs := Except.ok.inj h
        obtain ⟨b, hb, hxb⟩ := ih hr
        exact ⟨b, List.mem_cons_of_mem a hb, hxb⟩

lemma unmarshal_missing_op {fields : List (String × Json)}
    (hop : lookupField fields "operation" = none ∨
      lookupField fields "operation" = some (Json.str ""))
    {a : KernelArgument}
    (h : unmarshalKernelArgument (Json.obj fields) = .ok a) :
    a.Operation = "" := by
  simp only [unmarshalKernelArgument] at h
  have hops : getStrField fields "operation" = .ok "" := by
    unfold getStrField
    rcases hop with h1 | h1 <;> rw [h1]
  rw [hops] at h
  cases hv : getStrField fields "value" with
  | error e => rw [hv] at h; exact absurd h (by simp)
  | ok v =>
    rw [hv] at h
    obtain rfl : (⟨"", v⟩ : KernelArgument) = a := Except.ok.inj h
    rfl

/-- C10: a record that omits the operation field entirely (or carries it as
the empty string) decodes with the zero value `""`, which is not
`"append"`, so `StrToKargs` returns a validation error: there is no
implicit default of `"append"`. -/
theorem c10_missing_operation_rejected (fields : List (String × Json))
    (pre post : List Json) (kargs : List KernelArgument)
    (hop : lookupField fields "operation" = none ∨
      lookupField fields "operation" = some (Json.str ""))
    (hdec : decodeKargsList (Json.arr (pre ++ Json.obj fields :: post)) = .ok kargs) :
    ∃ msg, StrToKargs (Json.arr (pre ++ Json.obj fields :: post)) = .error msg := by
  have hd : decodeElems (pre ++ Json.obj fields :: post) = .ok kargs := hdec
  obtain ⟨a, ha, hxa⟩ := decodeElems_mem hd
  have haop : a.Operation = "" := unmarshal_missing_op hop hxa
  obtain ⟨msg, hmsg⟩ := checkAppend_error_of_bad ⟨a, ha, by rw [haop]; decide⟩
  refine ⟨msg, ?_⟩
  unfold StrToKargs
  rw [hdec]
  exact hmsg

/-- C10 witness: a record with only a value field is rejected. -/
theorem c10_missing_operation_rejected_witness :
    ∃ msg,
      StrToKargs (Json.arr ([] ++ Json.obj [("value", Json.str "quiet")] :: [])) =
        .error msg :=
  c10_missing_operation_rejected [("value", Json.str "quiet")] [] [] [⟨"", "quiet"⟩]
    (Or.inl rfl) rfl

/-!
Kargs file resolver (`kargsFiles`, kargs.go lines 25-47).  The collaborator
read of `/coreos/kargs.json` plus the generic `json.Unmarshal` step is
modelled by its three observable outcomes: the read fails, the read succeeds
but the bytes are not valid JSON, or the bytes parse and yield the list of
optional `Path` fields of the manifest's `files` entries.
-/

/-- Outcome of reading and parsing the kargs manifest. -/
inductive ManifestRead where
  | readFail
  | malformed
  | parsed (paths : List (Option (List Nat)))

/-- The hardcoded fallback path `/EFI/redhat/grub.cfg`. -/
def defaultGrubFilePath : List Nat := strBytes "/EFI/redhat/grub.cfg"

/-- The hardcoded fallback path `/isolinux/isolinux.cfg`. -/
def defaultIsolinuxFilePath : List Nat := strBytes "/isolinux/isolinux.cfg"

/-- Embedding of `kargsFiles`: a failed read falls back to the two default
paths with no error; a successful read of malformed JSON is a fatal error;
a parsed manifest yields the non-null paths in manifest order. -/
def kargsFiles : ManifestRead → Except String (List (List Nat))
  | .readFail => .ok [defaultGrubFilePath, defaultIsolinuxFilePath]
  | .malformed => .error "json unmarshal failed"
  | .parsed paths => .ok (paths.filterMap id)

/-- C9: an absent manifest yields exactly the grub path followed by the
isolinux path with no error, while a manifest that is read but whose JSON is
malformed is a fatal error. -/
theorem c9_manifest_fallback :
    kargsFiles .readFail = .ok [defaultGrubFilePath, defaultIsolinuxFilePath] ∧
      ∃ e, kargsFiles .malformed = .error e :=
  ⟨rfl, "json unmarshal failed", rfl⟩

/-!
Reservation-table (s390x) strategy: `appendS390xKargs`.  The function's
filesystem effects are modelled as an event trace emitted by the call, and
the returned handle as the final content of the mutated extracted file
together with its seek position.  The original image is not an input of any
mutating step: the only written file is the private extracted copy, whose
content `fileContent` is supplied by the extraction.
-/

/-- One filesystem-visible step of `appendS390xKargs`, in program order. -/
inductive S390xEvent where
  | extractIso
  | openExtracted
  | seekTo (pos : Nat)
  | readToEnd
  | writeAt (pos : Nat) (data : List Nat)
  | syncFile
  | removeScratchDir
deriving DecidableEq, Repr

/-- One entry of the extended kargs manifest (`files[i]`): the in-file
offset at which argument bytes live. -/
structure KargsEntry where
  path : List Nat
  offset : Nat
deriving DecidableEq, Repr

/-- The extended kargs manifest (`default`, `files`, `size`). -/
structure KargsConfig where
  defaultArgs : List Nat
  files : List KargsEntry
  size : Nat
deriving DecidableEq, Repr

/-- Outcome of reading and parsing `/coreos/kargs.json` for the s390x path. -/
inductive CfgRead where
  | readFail
  | malformed
  | parsed (c : KargsConfig)

/-- Embedding of `appendS390xKargs`: read the manifest, find the entry for
`filePath`, extract the image, open the extracted copy (content
`fileContent`), seek to the entry's offset, read the existing trailing
bytes, seek back, write existing-then-new bytes, sync, seek to start, and
return the handle; the deferred `os.RemoveAll` of the scratch directory runs
as the call returns, so `removeScratchDir` is the last event of the call's
own trace.  The result pairs the handle (final file content, position) with
the trace. -/
def appendS390xKargs : CfgRead → List Nat → List Nat → List Nat →
    Except String (List Nat × Nat) × List S390xEvent
  | .readFail, _, _, _ => (.error "failed to read kargs config", [])
  | .malformed, _, _, _ => (.error "failed to unmarshal kargs config", [])
  | .parsed c, filePath, fileContent, appendKargs =>
    match c.files.find? (fun e => e.path == filePath) with
    | none => (.error "file not found in kargs config", [])
    | some entry =>
      (.ok (fileContent.take entry.offset ++
          List.replicate (entry.offset - fileContent.length) 0 ++
          (fileContent.drop entry.offset ++ appendKargs), 0),
        [.extractIso, .openExtracted, .seekTo entry.offset, .readToEnd,
          .seekTo entry.offset,
          .writeAt entry.offset (fileContent.drop entry.offset ++ appendKargs),
          .syncFile, .seekTo 0, .removeScratchDir])

/-- The manifest of the C4 counterexample and witness. -/
def c4cfg : KargsConfig :=
  ⟨strBytes "console=ttyS0", [⟨strBytes "images/cdboot.prm", 5⟩], 1024⟩

/-- C4 counterexample: the claim says the scratch directory is removed only
after the returned handle is no longer needed by the caller; but the
deferred `os.RemoveAll(isoTempDir)` runs when `appendS390xKargs` itself
returns, so the removal event belongs to the call's own trace — before the
caller has touched the handle at all. -/
theorem c4_scratch_removed_during_call :
    S390xEvent.removeScratchDir ∈
      (appendS390xKargs (.parsed c4cfg) (strBytes "images/cdboot.prm")
        (strBytes "abcdefghij") (strBytes " foo=bar")).2 := by
  decide

/-- C4 (amended): for every parsed manifest containing an entry for the
target path whose offset lies inside the extracted copy, the strategy
extracts the image, mutates only the private extracted copy (the write
event targets the extracted file; the original image is no input of any
mutating step), writes the existing trailing bytes followed by the new
argument bytes at the manifest entry's offset, syncs, and returns the
handle seeked to the start with content `fileContent ++ appendKargs`; the
scratch directory is removed as the call returns — the last event of the
call's own trace — not after the caller is done with the handle. -/
theorem c4_s390x_extract_mutate (c : KargsConfig) (entry : KargsEntry)
    (filePath fileContent appendKargs : List Nat)
    (hfind : c.files.find? (fun e => e.path == filePath) = some entry)
    (hoff : entry.offset ≤ fileContent.length) :
    appendS390xKargs (.parsed c) filePath fileContent appendKargs =
      (.ok (fileContent ++ appendKargs, 0),
        [.extractIso, .openExtracted, .seekTo entry.offset, .readToEnd,
          .seekTo entry.offset,
          .writeAt entry.offset (fileContent.drop entry.offset ++ appendKargs),
          .syncFile, .seekTo 0, .removeScratchDir]) := by
  have hz : entry.offset - fileContent.length = 0 := Nat.sub_eq_zero_of_le hoff
  simp only [appendS390xKargs, hfind, hz, List.replicate_zero, List.append_nil,
    ← List.append_assoc, List.take_append_drop]

/-- C4 witness: the concrete s390x case, entry offset 5 inside a 10-byte
extracted file. -/
theorem c4_s390x_extract_mutate_witness :
    appendS390xKargs (.parsed c4cfg) (strBytes "images/cdboot.prm")
        (strBytes "abcdefghij") (strBytes " foo=bar") =
      (.ok (strBytes "abcdefghij" ++ strBytes " foo=bar", 0),
        [.extractIso, .openExtracted, .seekTo 5, .readToEnd, .seekTo 5,
          .writeAt 5 ((strBytes "abcdefghij").drop 5 ++ strBytes " foo=bar"),
          .syncFile, .seekTo 0, .removeScratchDir]) :=
  c4_s390x_extract_mutate c4cfg ⟨strBytes "images/cdboot.prm", 5⟩
    (strBytes "images/cdboot.prm") (strBytes "abcdefghij") (strBytes " foo=bar")
    (by decide) (by decide)
